import Mathlib

/-!
Verification of the Gaussian mixture model in `src/gmm.py` (kesmarag/ml-gmm).

The `GMM` class is shallowly embedded over exact rationals.  The external
numeric collaborators the source imports (scipy's multivariate normal density,
numpy's eigenvalue solver and random initializer, matplotlib's `normpdf`,
sklearn's k-means, and the transcendental `log`/`sqrt`) are abstracted as a
record of capabilities, matching the spec's external-interface section, which
places those routines out of scope.  Everything the repository itself computes
(the E-step, the M-step, the covariance repair loop, the fit loop, and the two
density queries) is translated directly from `src/gmm.py`.

Unbounded `while` loops in the source (the positive-definiteness repair) are
modelled with an explicit fuel parameter: a result of `none` means the source
loop has not exited within `fuel` perturbations, and a theorem proving `none`
for every fuel shows the source loop never exits.
-/

/-- External numeric capabilities used by `src/gmm.py`: scipy's
`multivariate_normal.pdf(x, mean, cov)`, `np.log`, `np.sqrt`, matplotlib's
`mlab.normpdf(x, mean, std)`, `np.linalg.eigvals`, sklearn's k-means cluster
centers, and `np.random.randn(m, d)`. -/
structure Numerics where
  pdf : List ℚ → List ℚ → List (List ℚ) → ℚ
  log : ℚ → ℚ
  sqrt : ℚ → ℚ
  normpdf : ℚ → ℚ → ℚ → ℚ
  eigvals : List (List ℚ) → List ℚ
  kmeans : List (List ℚ) → Nat → List (List ℚ)
  randn : Nat → Nat → List (List ℚ)

/-- The state of a `GMM` object: `self._m`, `self._d`, `self._pi`,
`self._mu`, `self._sigma`, `self._gamma` (`None` until the first E-step) and
`self._post`. -/
structure GMMState where
  m : Nat
  d : Nat
  pi : List ℚ
  mu : List (List ℚ)
  sigma : List (List (List ℚ))
  gamma : Option (List (List ℚ))
  post : ℚ
  deriving DecidableEq, Repr

/-- `np.identity(d)` as a rational matrix. -/
def idMat (d : Nat) : List (List ℚ) :=
  (List.range d).map fun a => (List.range d).map fun b => if a = b then 1 else 0

/-- `GMM.__init__(num_mixtures, data_dim)`.  The source performs no argument
validation; numpy itself raises only when asked for an array of negative size
(`np.ones((m,))`, `np.random.randn(m, d)`, `np.identity(d)`), which is the
`none` case here.  Size zero is accepted and produces empty parameter arrays. -/
def gmmInit (nm : Numerics) (numMixtures dataDim : Int) : Option GMMState :=
  if numMixtures < 0 ∨ dataDim < 0 then none
  else some { m := numMixtures.toNat
              d := dataDim.toNat
              pi := (List.range numMixtures.toNat).map fun _ => 1 / (numMixtures : ℚ)
              mu := nm.randn numMixtures.toNat dataDim.toNat
              sigma := (List.range numMixtures.toNat).map fun _ => idMat dataDim.toNat
              gamma := none
              post := 0 }

/-- One perturbation of the repair loop:
`cov + 0.05 * np.identity(len(cov)) * cov`, an elementwise product that scales
every diagonal entry by `1.05` and leaves off-diagonal entries unchanged. -/
def perturbCov (cov : List (List ℚ)) : List (List ℚ) :=
  cov.enum.map fun ar => ar.2.enum.map fun bx =>
    if ar.1 = bx.1 then bx.2 + 1/20 * bx.2 else bx.2

/-- `GMM._is_pos_def(sigma)`: `np.all(np.linalg.eigvals(sigma) > 0.02)`,
with the eigenvalue solver abstracted as a capability. -/
def isPosDef (nm : Numerics) (sigma : List (List ℚ)) : Bool :=
  (nm.eigvals sigma).all fun l => decide ((1 : ℚ)/50 < l)

/-- The repair loop `while not self._is_pos_def(cov): cov = cov + 0.05*I*cov`,
present both in `_expectation_maximization` and in `get_multivariate`.  The
source has no iteration bound; the fuel makes the embedding total, and
`none` for every fuel value means the source loop runs forever. -/
def repairLoop (nm : Numerics) : Nat → List (List ℚ) → Option (List (List ℚ))
  | 0, c => if isPosDef nm c then some c else none
  | k + 1, c => if isPosDef nm c then some c else repairLoop nm k (perturbCov c)

/-- The `for k in range(self._m)` pass that repairs every covariance matrix
in turn. -/
def repairAll (nm : Numerics) (fuel : Nat) :
    List (List (List ℚ)) → Option (List (List (List ℚ)))
  | [] => some []
  | c :: rest =>
    match repairLoop nm fuel c, repairAll nm fuel rest with
    | some c2, some r2 => some (c2 :: r2)
    | _, _ => none

/-- Row `m` of the E-step density matrix `mixture`:
`multivariate_normal.pdf(data, self._mu[m], self._sigma[m])` evaluated on
every data row. -/
def mixRow (nm : Numerics) (data : List (List ℚ)) (s : GMMState) (m : Nat) : List ℚ :=
  data.map fun x => nm.pdf x (s.mu.getD m []) (s.sigma.getD m [])

/-- Row `m` of `pi_mixture = np.multiply(np.expand_dims(self._pi, -1), mixture)`. -/
def pimRow (nm : Numerics) (data : List (List ℚ)) (s : GMMState) (m : Nat) : List ℚ :=
  (mixRow nm data s m).map fun v => s.pi.getD m 0 * v

/-- The matrix `pi_mixture`, rows indexed by the mixture. -/
def piMixtureMat (nm : Numerics) (data : List (List ℚ)) (s : GMMState) : List (List ℚ) :=
  (List.range s.m).map (pimRow nm data s)

/-- `sum_m_pi_mixture = np.sum(pi_mixture, axis=0)`: per data point, the sum
over mixtures of the weighted densities. -/
def colSumsPM (nm : Numerics) (data : List (List ℚ)) (s : GMMState) : List ℚ :=
  (List.range data.length).map fun j =>
    ((piMixtureMat nm data s).map fun r => r.getD j 0).sum

/-- Row `m` of `self._gamma = pi_mixture / sum_m_pi_mixture`. -/
def gammaRow (nm : Numerics) (data : List (List ℚ)) (s : GMMState) (m : Nat) : List ℚ :=
  List.zipWith (· / ·) (pimRow nm data s m) (colSumsPM nm data s)

/-- The responsibilities matrix computed by the E-step. -/
def gammaMat (nm : Numerics) (data : List (List ℚ)) (s : GMMState) : List (List ℚ) :=
  (List.range s.m).map (gammaRow nm data s)

/-- `N_m = np.sum(self._gamma, axis=-1)`: effective count of every mixture. -/
def effCounts (nm : Numerics) (data : List (List ℚ)) (s : GMMState) : List ℚ :=
  (gammaMat nm data s).map List.sum

/-- `self._pi = N_m / data.shape[0]`. -/
def piNew (nm : Numerics) (data : List (List ℚ)) (s : GMMState) : List ℚ :=
  (effCounts nm data s).map fun q => q / (data.length : ℚ)

/-- Dot product of two rational vectors. -/
def dotL (v w : List ℚ) : ℚ :=
  (List.zipWith (· * ·) v w).sum

/-- `np.dot`: matrix product of an `m×n` and an `n×d` rational matrix. -/
def matMulL (A B : List (List ℚ)) : List (List ℚ) :=
  A.map fun r => (List.range (B.getD 0 []).length).map fun t =>
    dotL r (B.map fun br => br.getD t 0)

/-- `self._mu = np.dot(self._gamma, data) / np.expand_dims(N_m, -1)`. -/
def muNew (nm : Numerics) (data : List (List ℚ)) (s : GMMState) : List (List ℚ) :=
  List.zipWith (fun r q => r.map fun v => v / q)
    (matMulL (gammaMat nm data s) data) (effCounts nm data s)

/-- Elementwise difference of two rational vectors. -/
def vecSub (v w : List ℚ) : List ℚ :=
  List.zipWith (· - ·) v w

/-- Outer product `v vᵀ` of a rational vector with itself. -/
def outerL (v : List ℚ) : List (List ℚ) :=
  v.map fun a => v.map fun b => a * b

/-- Scalar multiple of a rational matrix. -/
def matScaleL (c : ℚ) (A : List (List ℚ)) : List (List ℚ) :=
  A.map fun r => r.map fun v => c * v

/-- Elementwise sum of two rational matrices of equal shape. -/
def matAddL (A B : List (List ℚ)) : List (List ℚ) :=
  List.zipWith (fun r t => List.zipWith (· + ·) r t) A B

/-- Elementwise division of a rational matrix by a scalar. -/
def matDivL (A : List (List ℚ)) (c : ℚ) : List (List ℚ) :=
  A.map fun r => r.map fun v => v / c

/-- The all-zero `r×c` rational matrix. -/
def zeroMat (r c : Nat) : List (List ℚ) :=
  (List.range r).map fun _ => (List.range c).map fun _ => (0 : ℚ)

/-- Slice `m` of the M-step covariance update before any repair:
`np.sum(phi, axis=0) / N_m`, where
`phi[n] = gamma[m, n] * (x_n - mu_m)(x_n - mu_m)ᵀ` is built from the freshly
updated mean `mu_m`. -/
def sigmaRawM (nm : Numerics) (data : List (List ℚ)) (s : GMMState) (m : Nat) :
    List (List ℚ) :=
  matDivL
    ((List.zipWith
        (fun g x => matScaleL g (outerL (vecSub x ((muNew nm data s).getD m []))))
        (gammaRow nm data s m) data).foldr matAddL (zeroMat s.d s.d))
    ((effCounts nm data s).getD m 0)

/-- The full stack `self._sigma` of M-step covariances before repair. -/
def sigmaRawList (nm : Numerics) (data : List (List ℚ)) (s : GMMState) :
    List (List (List ℚ)) :=
  (List.range s.m).map (sigmaRawM nm data s)

/-- `self._post = np.sum(np.log(sum_m_pi_mixture))`, computed from the column
sums retained from the E-step of the same iteration. -/
def postNew (nm : Numerics) (data : List (List ℚ)) (s : GMMState) : ℚ :=
  ((colSumsPM nm data s).map nm.log).sum

/-- `GMM._expectation_maximization(data, tol)`: one E-step followed by one
M-step, including the covariance repair loops.  `none` models the repair
failing to exit within the given fuel. -/
def emStep (nm : Numerics) (data : List (List ℚ)) (fuel : Nat) (s : GMMState) :
    Option GMMState :=
  match repairAll nm fuel (sigmaRawList nm data s) with
  | none => none
  | some sig2 =>
    some { s with pi := piNew nm data s
                  mu := muNew nm data s
                  sigma := sig2
                  gamma := some (gammaMat nm data s)
                  post := postNew nm data s }

/-- The `while` loop of `GMM.fit`, structurally recursive on the remaining
iteration budget `max_steps - step`.  Returns the final state, the number of
iterations executed, and the value `post_prev` held at the final comparison.
The k-means re-seeding of the means fires only when `step == 0`. -/
def fitLoop (nm : Numerics) (data : List (List ℚ)) (tol : ℚ) (fuel : Nat) :
    Nat → Bool → ℚ → GMMState → Option (GMMState × Nat × ℚ)
  | 0, _, p, s => some (s, 0, p)
  | k + 1, useK, p, s =>
    if tol < |s.post - p| / (data.length : ℚ) then
      let s1 := if useK then { s with mu := nm.kmeans data s.m } else s
      match emStep nm data fuel s1 with
      | none => none
      | some s2 =>
        (fitLoop nm data tol fuel k false s.post s2).map fun r =>
          (r.1, r.2.1 + 1, r.2.2)
    else some (s, 0, p)

/-- `GMM.fit(data, max_steps, tol, use_kmeans)` with the iteration count and
the final `post_prev` exposed: `step` starts at `0` and the loop also tests
`step < max_steps`, so the budget is `max_steps.toNat`, and `post_prev` is
seeded with `(tol + 1.0) * data.shape[0]`. -/
def fitRun (nm : Numerics) (data : List (List ℚ)) (maxSteps : Int) (tol : ℚ)
    (useK : Bool) (fuel : Nat) (s : GMMState) : Option (GMMState × Nat × ℚ) :=
  fitLoop nm data tol fuel maxSteps.toNat useK ((tol + 1) * (data.length : ℚ)) s

/-- `GMM.fit`, returning just the final model state. -/
def fit (nm : Numerics) (data : List (List ℚ)) (maxSteps : Int) (tol : ℚ)
    (useK : Bool) (fuel : Nat) (s : GMMState) : Option GMMState :=
  (fitRun nm data maxSteps tol useK fuel s).map fun r => r.1

/-- `np.linspace(a, b, num)`: `num` evenly spaced samples from `a` to `b`
inclusive. -/
def linspaceL (a b : ℚ) (num : Nat) : List ℚ :=
  (List.range num).map fun (k : Nat) =>
    if num ≤ 1 then a else a + (k : ℚ) * (b - a) / ((num : ℚ) - 1)

/-- `GMM.get_marginal(i, interval, plot_interval, scaling_factor, num_samples)`.
The state is threaded through unchanged (the method assigns to no attribute);
the result is the pair of abscissas and density values. -/
def getMarginal (nm : Numerics) (s : GMMState) (i : Nat)
    (interval plotInterval : ℚ × ℚ) (scalingFactor : ℚ) (numSamples : Nat) :
    GMMState × (List ℚ × List ℚ) :=
  let ra := (interval.2 - interval.1) / (2 * scalingFactor)
  let c := (interval.1 + interval.2) / 2
  let muR := s.mu.map fun row => ra * row.getD i 0 + c
  let varR := s.sigma.map fun sg => (sg.getD i []).getD i 0 * ra ^ 2
  let x := linspaceL plotInterval.1 plotInterval.2 numSamples
  let distr := x.map fun t =>
    ((List.range s.m).map fun m =>
      s.pi.getD m 0 * nm.normpdf t (muR.getD m 0) (nm.sqrt (varR.getD m 0))).sum
  (s, (x, distr))

/-- `GMM.get_multivariate(i, j, intervals, plot_intervals, scaling_factor,
num_samples)`.  The rescaled `2×2` covariance block of every mixture goes
through the same repair loop as the M-step, on a local copy only; the state is
threaded through unchanged.  `none` models a repair loop that never exits. -/
def getMultivariate (nm : Numerics) (s : GMMState) (i j : Nat)
    (intervals plotIntervals : (ℚ × ℚ) × (ℚ × ℚ)) (scalingFactor : ℚ)
    (numSamples : Nat) (fuel : Nat) :
    Option (GMMState × (List (List ℚ) × List (List ℚ) × List (List ℚ))) :=
  let raI := (intervals.1.2 - intervals.1.1) / (2 * scalingFactor)
  let raJ := (intervals.2.2 - intervals.2.1) / (2 * scalingFactor)
  let cI := (intervals.1.1 + intervals.1.2) / 2
  let cJ := (intervals.2.1 + intervals.2.2) / 2
  let muI := s.mu.map fun row => raI * row.getD i 0 + cI
  let muJ := s.mu.map fun row => raJ * row.getD j 0 + cJ
  let gx := linspaceL plotIntervals.1.1 plotIntervals.1.2 numSamples
  let gy := linspaceL plotIntervals.2.1 plotIntervals.2.2 numSamples
  let covs := (List.range s.m).map fun m =>
    let sg := s.sigma.getD m []
    [[(sg.getD i []).getD i 0 * raI ^ 2, (sg.getD i []).getD j 0 * raI * raJ],
     [(sg.getD i []).getD j 0 * raI * raJ, (sg.getD j []).getD j 0 * raJ ^ 2]]
  (repairAll nm fuel covs).map fun covs2 =>
    (s, (gy.map fun _ => gx, gy.map fun v => gx.map fun _ => v,
      gy.map fun v => gx.map fun u =>
        ((List.range s.m).map fun m =>
          s.pi.getD m 0 *
            nm.pdf [u, v] [muI.getD m 0, muJ.getD m 0] (covs2.getD m [])).sum))

/-- Determinant of a `2×2` rational matrix, used to witness concrete
eigenvalues of the counterexample covariance below. -/
def det2 (A : List (List ℚ)) : ℚ :=
  (A.getD 0 []).getD 0 0 * (A.getD 1 []).getD 1 0 -
    (A.getD 0 []).getD 1 0 * (A.getD 1 []).getD 0 0

/-- A covariance matrix on which the repair perturbation makes no progress:
its diagonal is zero, so scaling the diagonal by `1.05` changes nothing. -/
def badCov : List (List ℚ) := [[0, 1], [1, 0]]

/-! ### List indexing helpers -/

lemma range_map_getD {α : Type _} (l : List α) (d : α) :
    (List.range l.length).map (fun j => l.getD j d) = l := by
  induction l with
  | nil => simp
  | cons a t ih =>
    rw [List.length_cons, List.range_succ_eq_map, List.map_cons, List.map_map]
    have hc : ((fun j => (a :: t).getD j d) ∘ Nat.succ) = fun j => t.getD j d := by
      funext j
      simp [Function.comp, List.getD_cons_succ]
    rw [hc, ih, List.getD_cons_zero]

lemma getD_map_lt {α β : Type _} (f : α → β) {l : List α} {j : Nat}
    (hj : j < l.length) (d : β) (d' : α) :
    (l.map f).getD j d = f (l.getD j d') := by
  rw [List.getD_eq_getElem l d' hj,
    List.getD_eq_getElem (l.map f) d (by simpa using hj), List.getElem_map]

lemma getD_zipWith_lt {α β γ : Type _} (f : α → β → γ) {u : List α} {w : List β}
    {j : Nat} (hu : j < u.length) (hw : j < w.length) (d : γ) (du : α) (dw : β) :
    (List.zipWith f u w).getD j d = f (u.getD j du) (w.getD j dw) := by
  rw [List.getD_eq_getElem u du hu, List.getD_eq_getElem w dw hw,
    List.getD_eq_getElem (List.zipWith f u w) d (by simp [hu, hw]),
    List.getElem_zipWith]

lemma getD_range_lt {j n : Nat} (hj : j < n) (d : Nat) :
    (List.range n).getD j d = j := by
  rw [List.getD_eq_getElem _ d (by simpa using hj), List.getElem_range]

lemma zipWith_eq_range_map {α β γ : Type _} (f : α → β → γ) (u : List α)
    (w : List β) (h : u.length = w.length) (du : α) (dw : β) :
    List.zipWith f u w =
      (List.range u.length).map fun k => f (u.getD k du) (w.getD k dw) := by
  induction u generalizing w with
  | nil => simp
  | cons a u ih =>
    cases w with
    | nil => simp at h
    | cons b w =>
      rw [List.zipWith_cons_cons, List.length_cons, List.range_succ_eq_map,
        List.map_cons, List.map_map]
      have hc : ((fun k => f ((a :: u).getD k du) ((b :: w).getD k dw)) ∘ Nat.succ) =
          fun k => f (u.getD k du) (w.getD k dw) := by
        funext k
        simp [Function.comp, List.getD_cons_succ]
      rw [hc, ih w (by simpa using h), List.getD_cons_zero, List.getD_cons_zero]

lemma sum_eq_range_getD (l : List ℚ) :
    l.sum = ((List.range l.length).map fun k => l.getD k 0).sum := by
  rw [range_map_getD]

/-! ### List arithmetic helpers -/

lemma sum_map_div (l : List ℚ) (c : ℚ) :
    (l.map fun v => v / c).sum = l.sum / c := by
  induction l with
  | nil => simp
  | cons a t ih => simp [ih, add_div]

lemma sum_map_add_range (n : Nat) (f g : Nat → ℚ) :
    ((List.range n).map fun j => f j + g j).sum =
      ((List.range n).map f).sum + ((List.range n).map g).sum := by
  induction n with
  | zero => simp
  | succ k ih =>
    simp only [List.range_succ, List.map_append, List.sum_append, ih,
      List.map_cons, List.map_nil, List.sum_cons, List.sum_nil]
    ring

lemma sum_pos_of_mem {l : List ℚ} (hnn : ∀ x ∈ l, 0 ≤ x) {a : ℚ}
    (ha : a ∈ l) (hpos : 0 < a) : 0 < l.sum := by
  induction l with
  | nil => simp at ha
  | cons b t ih =>
    have hb : 0 ≤ b := hnn b (by simp)
    have ht : ∀ x ∈ t, 0 ≤ x := fun x hx => hnn x (by simp [hx])
    rcases List.mem_cons.mp ha with h | h
    · subst h
      have : (0:ℚ) ≤ t.sum := List.sum_nonneg ht
      simp only [List.sum_cons]; linarith
    · have : 0 < t.sum := ih ht h
      simp only [List.sum_cons]; linarith

lemma sum_map_neg (l : List ℚ) : (l.map Neg.neg).sum = -l.sum := by
  induction l with
  | nil => simp
  | cons a t ih =>
    simp only [List.map_cons, List.sum_cons, ih]
    ring

lemma exists_pos_of_sum_one {l : List ℚ} (h : l.sum = 1) : ∃ q ∈ l, 0 < q := by
  by_contra hc
  push_neg at hc
  have hns : 0 ≤ (l.map Neg.neg).sum := by
    refine List.sum_nonneg ?_
    intro x hx
    obtain ⟨y, hy, rfl⟩ := List.mem_map.mp hx
    have := hc y hy
    linarith
  rw [sum_map_neg, h] at hns
  linarith

/-! ### Repair loop facts -/

lemma repairLoop_posDef (nm : Numerics) :
    ∀ fuel c t, repairLoop nm fuel c = some t → isPosDef nm t = true := by
  intro fuel
  induction fuel with
  | zero =>
    intro c t h
    by_cases hp : isPosDef nm c = true
    · simp only [repairLoop, hp, if_true, Option.some.injEq] at h
      rw [← h]; exact hp
    · simp [repairLoop, hp] at h
  | succ k ih =>
    intro c t h
    by_cases hp : isPosDef nm c = true
    · simp only [repairLoop, hp, if_true, Option.some.injEq] at h
      rw [← h]; exact hp
    · simp only [repairLoop, hp, if_false, Bool.false_eq_true] at h
      exact ih _ _ h

lemma repairAll_posDef (nm : Numerics) (fuel : Nat) :
    ∀ L L2, repairAll nm fuel L = some L2 → ∀ t ∈ L2, isPosDef nm t = true := by
  intro L
  induction L with
  | nil =>
    intro L2 h t ht
    simp only [repairAll, Option.some.injEq] at h
    rw [← h] at ht
    simp at ht
  | cons c rest ih =>
    intro L2 h t ht
    cases hr : repairLoop nm fuel c with
    | none => simp [repairAll, hr] at h
    | some c2 =>
      cases ha : repairAll nm fuel rest with
      | none => simp [repairAll, hr, ha] at h
      | some r2 =>
        simp only [repairAll, hr, ha, Option.some.injEq] at h
        rw [← h] at ht
        rcases List.mem_cons.mp ht with h1 | h1
        · rw [h1]; exact repairLoop_posDef nm fuel c c2 hr
        · exact ih r2 ha t h1

/-! ### Shapes and entries of the E-step arrays -/

section Entries

variable (nm : Numerics) (data : List (List ℚ)) (s : GMMState)

lemma mixRow_length (m : Nat) : (mixRow nm data s m).length = data.length := by
  simp [mixRow]

lemma pimRow_length (m : Nat) : (pimRow nm data s m).length = data.length := by
  simp [pimRow, mixRow]

lemma colSumsPM_length : (colSumsPM nm data s).length = data.length := by
  simp [colSumsPM]

lemma gammaRow_length (m : Nat) : (gammaRow nm data s m).length = data.length := by
  simp [gammaRow, pimRow_length, colSumsPM_length]

lemma gammaMat_length : (gammaMat nm data s).length = s.m := by
  simp [gammaMat]

lemma effCounts_length : (effCounts nm data s).length = s.m := by
  simp [effCounts, gammaMat]

lemma piNew_length : (piNew nm data s).length = s.m := by
  simp [piNew, effCounts, gammaMat]

lemma gammaMat_getD {m : Nat} (hm : m < s.m) :
    (gammaMat nm data s).getD m [] = gammaRow nm data s m := by
  unfold gammaMat
  rw [getD_map_lt _ (by simpa using hm) _ 0, getD_range_lt hm]

lemma pimRow_getD (m : Nat) {j : Nat} (hj : j < data.length) :
    (pimRow nm data s m).getD j 0 =
      s.pi.getD m 0 * nm.pdf (data.getD j []) (s.mu.getD m []) (s.sigma.getD m []) := by
  unfold pimRow mixRow
  rw [getD_map_lt _ (by simpa using hj) _ 0, getD_map_lt _ hj _ []]

lemma colSumsPM_getD {j : Nat} (hj : j < data.length) :
    (colSumsPM nm data s).getD j 0 =
      ((List.range s.m).map fun m =>
        s.pi.getD m 0 *
          nm.pdf (data.getD j []) (s.mu.getD m []) (s.sigma.getD m [])).sum := by
  unfold colSumsPM
  rw [getD_map_lt _ (by simpa using hj) _ 0, getD_range_lt hj]
  unfold piMixtureMat
  rw [List.map_map]
  refine congrArg List.sum ?_
  refine List.map_congr_left fun m _ => ?_
  exact pimRow_getD nm data s m hj

lemma gammaRow_getD (m : Nat) {j : Nat} (hj : j < data.length) :
    (gammaRow nm data s m).getD j 0 =
      (pimRow nm data s m).getD j 0 / (colSumsPM nm data s).getD j 0 := by
  unfold gammaRow
  exact getD_zipWith_lt _ (by simpa [pimRow_length] using hj)
    (by simpa [colSumsPM_length] using hj) 0 0 0

lemma effCounts_getD {m : Nat} (hm : m < s.m) :
    (effCounts nm data s).getD m 0 = (gammaRow nm data s m).sum := by
  unfold effCounts
  rw [getD_map_lt _ (by simpa [gammaMat] using hm) _ [], gammaMat_getD nm data s hm]

lemma piNew_getD {m : Nat} (hm : m < s.m) :
    (piNew nm data s).getD m 0 =
      (effCounts nm data s).getD m 0 / (data.length : ℚ) := by
  unfold piNew
  rw [getD_map_lt _ (by simpa [effCounts, gammaMat] using hm) _ 0]

end Entries

/-! ### Positivity and column-sum facts for the E-step -/

lemma sum_comm_range (M N : Nat) (F : Nat → Nat → ℚ) :
    ((List.range M).map fun m => ((List.range N).map fun j => F m j).sum).sum =
      ((List.range N).map fun j => ((List.range M).map fun m => F m j).sum).sum := by
  induction M with
  | zero =>
    simp only [List.range_zero, List.map_nil, List.sum_nil]
    rw [eq_comm]
    refine List.sum_eq_zero fun x hx => ?_
    obtain ⟨j, _, rfl⟩ := List.mem_map.mp hx
    simp
  | succ k ih =>
    simp only [List.range_succ, List.map_append, List.sum_append,
      List.map_cons, List.map_nil, List.sum_cons, List.sum_nil, add_zero, ih]
    rw [sum_map_add_range]

lemma getD_nonneg_of_forall {l : List ℚ} (hnn : ∀ q ∈ l, 0 ≤ q) (m : Nat) :
    0 ≤ l.getD m 0 := by
  by_cases hm : m < l.length
  · exact hnn _ (by rw [List.getD_eq_getElem l 0 hm]; exact List.getElem_mem hm)
  · rw [List.getD_eq_default l 0 (by omega)]

section Inv

variable {nm : Numerics} {data : List (List ℚ)} {s : GMMState}
variable (hpdf : ∀ x mu sg, 0 < nm.pdf x mu sg)
variable (hnn : ∀ q ∈ s.pi, 0 ≤ q) (hsum : s.pi.sum = 1) (hlen : s.pi.length = s.m)

lemma colSumsPM_getD_pos (hpdf : ∀ x mu sg, 0 < nm.pdf x mu sg)
    (hnn : ∀ q ∈ s.pi, 0 ≤ q) (hsum : s.pi.sum = 1) (hlen : s.pi.length = s.m)
    {j : Nat} (hj : j < data.length) :
    0 < (colSumsPM nm data s).getD j 0 := by
  rw [colSumsPM_getD nm data s hj]
  obtain ⟨q, hq, hqpos⟩ := exists_pos_of_sum_one hsum
  obtain ⟨k, hk, hkq⟩ := List.mem_iff_getElem.mp hq
  have hkm : k < s.m := hlen ▸ hk
  refine sum_pos_of_mem ?_
    (a := s.pi.getD k 0 *
      nm.pdf (data.getD j []) (s.mu.getD k []) (s.sigma.getD k [])) ?_ ?_
  · intro x hx
    obtain ⟨mix, _, rfl⟩ := List.mem_map.mp hx
    exact mul_nonneg (getD_nonneg_of_forall hnn mix) (le_of_lt (hpdf _ _ _))
  · exact List.mem_map.mpr ⟨k, by simpa using hkm, rfl⟩
  · have : s.pi.getD k 0 = q := by rw [List.getD_eq_getElem s.pi 0 hk, hkq]
    rw [this]
    exact mul_pos hqpos (hpdf _ _ _)

lemma gamma_colSum_one (hpdf : ∀ x mu sg, 0 < nm.pdf x mu sg)
    (hnn : ∀ q ∈ s.pi, 0 ≤ q) (hsum : s.pi.sum = 1) (hlen : s.pi.length = s.m)
    {j : Nat} (hj : j < data.length) :
    ((gammaMat nm data s).map fun r => r.getD j 0).sum = 1 := by
  unfold gammaMat
  rw [List.map_map]
  have h1 : ((fun r => List.getD r j 0) ∘ gammaRow nm data s) =
      fun m => (pimRow nm data s m).getD j 0 / (colSumsPM nm data s).getD j 0 := by
    funext m
    exact gammaRow_getD nm data s m hj
  rw [h1]
  have h2 : (List.range s.m).map
        (fun m => (pimRow nm data s m).getD j 0 / (colSumsPM nm data s).getD j 0) =
      ((List.range s.m).map fun m => (pimRow nm data s m).getD j 0).map
        fun v => v / (colSumsPM nm data s).getD j 0 := by
    rw [List.map_map]
    rfl
  rw [h2, sum_map_div]
  have h3 : ((List.range s.m).map fun m => (pimRow nm data s m).getD j 0).sum =
      (colSumsPM nm data s).getD j 0 := by
    rw [colSumsPM_getD nm data s hj]
    refine congrArg List.sum (List.map_congr_left fun m _ => ?_)
    exact pimRow_getD nm data s m hj
  rw [h3]
  exact div_self (ne_of_gt (colSumsPM_getD_pos hpdf hnn hsum hlen hj))

lemma gammaRow_sum_eq_range (m : Nat) :
    (gammaRow nm data s m).sum =
      ((List.range data.length).map fun j => (gammaRow nm data s m).getD j 0).sum := by
  rw [← gammaRow_length nm data s m, ← sum_eq_range_getD]

lemma gammaRow_getD_nonneg (hpdf : ∀ x mu sg, 0 < nm.pdf x mu sg)
    (hnn : ∀ q ∈ s.pi, 0 ≤ q) (hsum : s.pi.sum = 1) (hlen : s.pi.length = s.m)
    (m j : Nat) : 0 ≤ (gammaRow nm data s m).getD j 0 := by
  by_cases hj : j < data.length
  · rw [gammaRow_getD nm data s m hj, pimRow_getD nm data s m hj]
    refine div_nonneg (mul_nonneg (getD_nonneg_of_forall hnn m) (le_of_lt (hpdf _ _ _)))
      (le_of_lt (colSumsPM_getD_pos hpdf hnn hsum hlen hj))
  · rw [List.getD_eq_default _ 0 (by rw [gammaRow_length]; omega)]

lemma effCounts_sum (hpdf : ∀ x mu sg, 0 < nm.pdf x mu sg)
    (hnn : ∀ q ∈ s.pi, 0 ≤ q) (hsum : s.pi.sum = 1) (hlen : s.pi.length = s.m) :
    (effCounts nm data s).sum = (data.length : ℚ) := by
  unfold effCounts gammaMat
  rw [List.map_map]
  have h1 : (List.sum ∘ gammaRow nm data s) =
      fun m => ((List.range data.length).map fun j => (gammaRow nm data s m).getD j 0).sum := by
    funext m
    exact gammaRow_sum_eq_range m
  rw [h1, sum_comm_range s.m data.length fun m j => (gammaRow nm data s m).getD j 0]
  have h2 : ∀ j ∈ List.range data.length,
      ((List.range s.m).map fun m => (gammaRow nm data s m).getD j 0).sum = 1 := by
    intro j hj
    have hj' : j < data.length := List.mem_range.mp hj
    have := gamma_colSum_one hpdf hnn hsum hlen hj'
    unfold gammaMat at this
    rw [List.map_map] at this
    have hc : ((fun r => List.getD r j 0) ∘ gammaRow nm data s) =
        fun m => (gammaRow nm data s m).getD j 0 := rfl
    rw [hc] at this
    exact this
  rw [List.map_congr_left h2]
  simp [List.map_const', List.sum_replicate]

lemma piNew_sum (hpdf : ∀ x mu sg, 0 < nm.pdf x mu sg)
    (hnn : ∀ q ∈ s.pi, 0 ≤ q) (hsum : s.pi.sum = 1) (hlen : s.pi.length = s.m)
    (hdata : data ≠ []) : (piNew nm data s).sum = 1 := by
  unfold piNew
  rw [sum_map_div, effCounts_sum hpdf hnn hsum hlen]
  have : (data.length : ℚ) ≠ 0 := by
    have : data.length ≠ 0 := by simpa using hdata
    exact_mod_cast this
  exact div_self this

lemma piNew_nonneg (hpdf : ∀ x mu sg, 0 < nm.pdf x mu sg)
    (hnn : ∀ q ∈ s.pi, 0 ≤ q) (hsum : s.pi.sum = 1) (hlen : s.pi.length = s.m) :
    ∀ q ∈ piNew nm data s, 0 ≤ q := by
  intro q hq
  obtain ⟨e, he, rfl⟩ := List.mem_map.mp hq
  obtain ⟨r, hr, rfl⟩ := List.mem_map.mp he
  obtain ⟨m, _, rfl⟩ := List.mem_map.mp hr
  refine div_nonneg ?_ (by positivity)
  rw [gammaRow_sum_eq_range]
  refine List.sum_nonneg fun x hx => ?_
  obtain ⟨j, _, rfl⟩ := List.mem_map.mp hx
  exact gammaRow_getD_nonneg hpdf hnn hsum hlen m j

end Inv

/-! ### The EM step and its invariants -/

lemma emStep_eq_some {nm : Numerics} {data : List (List ℚ)} {fuel : Nat}
    {s s' : GMMState} :
    emStep nm data fuel s = some s' ↔
      ∃ sig2, repairAll nm fuel (sigmaRawList nm data s) = some sig2 ∧
        s' = { s with pi := piNew nm data s
                      mu := muNew nm data s
                      sigma := sig2
                      gamma := some (gammaMat nm data s)
                      post := postNew nm data s } := by
  unfold emStep
  cases h : repairAll nm fuel (sigmaRawList nm data s) with
  | none => simp
  | some sig2 =>
    simp only [Option.some.injEq]
    constructor
    · intro h2
      exact ⟨sig2, rfl, h2.symm⟩
    · rintro ⟨sg, hsg, rfl⟩
      rw [hsg]

/-- Well-formedness of the mixing coefficients, preserved by every EM step. -/
def goodPi (s : GMMState) : Prop :=
  (∀ q ∈ s.pi, 0 ≤ q) ∧ s.pi.sum = 1 ∧ s.pi.length = s.m

lemma emStep_inv {nm : Numerics} {data : List (List ℚ)} {fuel : Nat}
    {s s' : GMMState} (hpdf : ∀ x mu sg, 0 < nm.pdf x mu sg)
    (hdata : data ≠ []) (hg : goodPi s)
    (hst : emStep nm data fuel s = some s') :
    goodPi s' ∧ s'.m = s.m ∧
      (∀ sg ∈ s'.sigma, isPosDef nm sg = true) ∧
      s'.gamma = some (gammaMat nm data s) ∧ s'.post = postNew nm data s := by
  obtain ⟨hnn, hsum, hlen⟩ := hg
  obtain ⟨sig2, hrep, rfl⟩ := emStep_eq_some.mp hst
  refine ⟨⟨piNew_nonneg hpdf hnn hsum hlen, piNew_sum hpdf hnn hsum hlen hdata,
    by simpa using piNew_length nm data s⟩, rfl,
    repairAll_posDef nm fuel _ sig2 hrep, rfl, rfl⟩

/-! ### The fit loop -/

lemma fitLoop_succ_of_ge {nm : Numerics} {data : List (List ℚ)} {tol : ℚ}
    {fuel k : Nat} {u : Bool} {p : ℚ} {s : GMMState}
    (h : ¬ tol < |s.post - p| / (data.length : ℚ)) :
    fitLoop nm data tol fuel (k + 1) u p s = some (s, 0, p) := by
  simp only [fitLoop, if_neg h]

lemma fitLoop_succ_em_none {nm : Numerics} {data : List (List ℚ)} {tol : ℚ}
    {fuel k : Nat} {u : Bool} {p : ℚ} {s : GMMState}
    (h : tol < |s.post - p| / (data.length : ℚ))
    (hem : emStep nm data fuel
      (if u then { s with mu := nm.kmeans data s.m } else s) = none) :
    fitLoop nm data tol fuel (k + 1) u p s = none := by
  simp only [fitLoop, if_pos h, hem]

lemma fitLoop_succ_em_some {nm : Numerics} {data : List (List ℚ)} {tol : ℚ}
    {fuel k : Nat} {u : Bool} {p : ℚ} {s s2 : GMMState}
    (h : tol < |s.post - p| / (data.length : ℚ))
    (hem : emStep nm data fuel
      (if u then { s with mu := nm.kmeans data s.m } else s) = some s2) :
    fitLoop nm data tol fuel (k + 1) u p s =
      (fitLoop nm data tol fuel k false s.post s2).map fun r =>
        (r.1, r.2.1 + 1, r.2.2) := by
  simp only [fitLoop, if_pos h, hem]

lemma fitLoop_steps_le {nm : Numerics} {data : List (List ℚ)} {tol : ℚ} {fuel : Nat} :
    ∀ k (u : Bool) p s r, fitLoop nm data tol fuel k u p s = some r → r.2.1 ≤ k := by
  intro k
  induction k with
  | zero =>
    intro u p s r h
    simp only [fitLoop, Option.some.injEq] at h
    rw [← h]
  | succ k ih =>
    intro u p s r h
    by_cases hc : tol < |s.post - p| / (data.length : ℚ)
    · cases hem : emStep nm data fuel
          (if u then { s with mu := nm.kmeans data s.m } else s) with
      | none => rw [fitLoop_succ_em_none hc hem] at h; simp at h
      | some s2 =>
        rw [fitLoop_succ_em_some hc hem] at h
        cases hrec : fitLoop nm data tol fuel k false s.post s2 with
        | none => rw [hrec] at h; simp at h
        | some r0 =>
          rw [hrec] at h
          simp only [Option.map_some', Option.some.injEq] at h
          have := ih false s.post s2 r0 hrec
          rw [← h]
          exact Nat.succ_le_succ this
    · rw [fitLoop_succ_of_ge hc] at h
      rw [Option.some.injEq] at h
      rw [← h]
      exact Nat.zero_le _

lemma fitLoop_exit_converged {nm : Numerics} {data : List (List ℚ)} {tol : ℚ}
    {fuel : Nat} :
    ∀ k (u : Bool) p s s' c p',
      fitLoop nm data tol fuel k u p s = some (s', c, p') → c < k →
        ¬ tol < |s'.post - p'| / (data.length : ℚ) := by
  intro k
  induction k with
  | zero => intro u p s s' c p' _ hc; omega
  | succ k ih =>
    intro u p s s' c p' h hc
    by_cases hcond : tol < |s.post - p| / (data.length : ℚ)
    · cases hem : emStep nm data fuel
          (if u then { s with mu := nm.kmeans data s.m } else s) with
      | none => rw [fitLoop_succ_em_none hcond hem] at h; simp at h
      | some s2 =>
        rw [fitLoop_succ_em_some hcond hem] at h
        cases hrec : fitLoop nm data tol fuel k false s.post s2 with
        | none => rw [hrec] at h; simp at h
        | some r0 =>
          rw [hrec] at h
          simp only [Option.map_some', Option.some.injEq, Prod.mk.injEq] at h
          obtain ⟨h1, h2, h3⟩ := h
          exact ih false s.post s2 s' r0.2.1 p'
            (by rw [hrec, ← h1, ← h3]) (by omega)
    · rw [fitLoop_succ_of_ge hcond] at h
      simp only [Option.some.injEq, Prod.mk.injEq] at h
      obtain ⟨h1, _, h3⟩ := h
      rw [← h1, ← h3]
      exact hcond

lemma fitLoop_last_em {nm : Numerics} {data : List (List ℚ)} {tol : ℚ} {fuel : Nat}
    (hpdf : ∀ x mu sg, 0 < nm.pdf x mu sg) (hdata : data ≠ []) :
    ∀ k (u : Bool) p s s' c p', goodPi s →
      fitLoop nm data tol fuel k u p s = some (s', c, p') →
        (s' = s ∧ c = 0) ∨
          ∃ t, goodPi t ∧ emStep nm data fuel t = some s' := by
  intro k
  induction k with
  | zero =>
    intro u p s s' c p' _ h
    simp only [fitLoop, Option.some.injEq, Prod.mk.injEq] at h
    exact Or.inl ⟨h.1.symm, h.2.1.symm⟩
  | succ k ih =>
    intro u p s s' c p' hg h
    by_cases hcond : tol < |s.post - p| / (data.length : ℚ)
    · have hg1 : goodPi (if u then { s with mu := nm.kmeans data s.m } else s) := by
        by_cases hu : u = true
        · simp only [hu, if_true]
          exact ⟨hg.1, hg.2.1, hg.2.2⟩
        · simp only [Bool.not_eq_true] at hu
          simp only [hu, Bool.false_eq_true, if_false]
          exact hg
      cases hem : emStep nm data fuel
          (if u then { s with mu := nm.kmeans data s.m } else s) with
      | none => rw [fitLoop_succ_em_none hcond hem] at h; simp at h
      | some s2 =>
        rw [fitLoop_succ_em_some hcond hem] at h
        cases hrec : fitLoop nm data tol fuel k false s.post s2 with
        | none => rw [hrec] at h; simp at h
        | some r0 =>
          rw [hrec] at h
          simp only [Option.map_some', Option.some.injEq, Prod.mk.injEq] at h
          obtain ⟨h1, _, _⟩ := h
          have hg2 : goodPi s2 := (emStep_inv hpdf hdata hg1 hem).1
          rcases ih false s.post s2 r0.1 r0.2.1 r0.2.2 hg2 (by rw [hrec]) with
            ⟨he, _⟩ | ⟨t, hgt, hemt⟩
          · exact Or.inr ⟨_, hg1, by rw [hem, ← h1, he]⟩
          · exact Or.inr ⟨t, hgt, by rw [hemt, h1]⟩
    · rw [fitLoop_succ_of_ge hcond] at h
      simp only [Option.some.injEq, Prod.mk.injEq] at h
      exact Or.inl ⟨h.1.symm, h.2.1.symm⟩

/-! ### Entrywise description of the M-step update -/

section MStep

variable (nm : Numerics) (data : List (List ℚ)) (s : GMMState)

lemma dataRow_length {k : Nat} (hrect : ∀ r ∈ data, r.length = s.d)
    (hk : k < data.length) : (data.getD k []).length = s.d := by
  rw [List.getD_eq_getElem data [] hk]
  exact hrect _ (List.getElem_mem hk)

lemma matMulL_gamma_getD {m : Nat} (hm : m < s.m) :
    (matMulL (gammaMat nm data s) data).getD m [] =
      (List.range (data.getD 0 []).length).map fun t =>
        dotL (gammaRow nm data s m) (data.map fun br => br.getD t 0) := by
  unfold matMulL
  rw [getD_map_lt _ (by rw [gammaMat_length]; exact hm) _ [],
    gammaMat_getD nm data s hm]

lemma muNew_getD_row {m : Nat} (hm : m < s.m) :
    (muNew nm data s).getD m [] =
      ((matMulL (gammaMat nm data s) data).getD m []).map
        fun v => v / (effCounts nm data s).getD m 0 := by
  unfold muNew
  exact getD_zipWith_lt _ (by simp [matMulL, gammaMat_length]; exact hm)
    (by rw [effCounts_length]; exact hm) [] [] 0

lemma muNew_row_length {m : Nat} (hm : m < s.m) (hdata : data ≠ [])
    (hrect : ∀ r ∈ data, r.length = s.d) :
    ((muNew nm data s).getD m []).length = s.d := by
  rw [muNew_getD_row nm data s hm, matMulL_gamma_getD nm data s hm]
  simp only [List.length_map, List.length_range]
  exact dataRow_length data s hrect (List.length_pos.mpr hdata)

lemma dotL_gammaRow_col (m t : Nat) :
    dotL (gammaRow nm data s m) (data.map fun br => br.getD t 0) =
      ((List.range data.length).map fun k =>
        (gammaRow nm data s m).getD k 0 * (data.getD k []).getD t 0).sum := by
  unfold dotL
  rw [zipWith_eq_range_map _ _ _ (by simp [gammaRow_length]) 0 0,
    gammaRow_length nm data s m]
  refine congrArg List.sum (List.map_congr_left fun k hk => ?_)
  have hk' := List.mem_range.mp hk
  rw [getD_map_lt _ hk' _ []]

lemma muNew_entry {m t : Nat} (hm : m < s.m) (hdata : data ≠ [])
    (hrect : ∀ r ∈ data, r.length = s.d) (ht : t < s.d) :
    ((muNew nm data s).getD m []).getD t 0 =
      ((List.range data.length).map fun k =>
        (gammaRow nm data s m).getD k 0 * (data.getD k []).getD t 0).sum /
      (effCounts nm data s).getD m 0 := by
  have hcols : (data.getD 0 []).length = s.d :=
    dataRow_length data s hrect (List.length_pos.mpr hdata)
  rw [muNew_getD_row nm data s hm, matMulL_gamma_getD nm data s hm,
    getD_map_lt _ (by rw [List.length_map, List.length_range, hcols]; exact ht) _ 0,
    getD_map_lt _ (by rw [List.length_range, hcols]; exact ht) _ 0,
    getD_range_lt (by rw [hcols]; exact ht) 0,
    dotL_gammaRow_col]

end MStep

/-! ### Shape bookkeeping for the covariance update -/

/-- A square `dd × dd` matrix, described through `getD` so that no
list-membership reasoning is needed. -/
def shaped (M : List (List ℚ)) (dd : Nat) : Prop :=
  M.length = dd ∧ ∀ i < dd, (M.getD i []).length = dd

lemma shaped_zeroMat (dd : Nat) : shaped (zeroMat dd dd) dd := by
  constructor
  · simp [zeroMat]
  · intro i hi
    unfold zeroMat
    rw [getD_map_lt _ (by simpa using hi) _ 0]
    simp

lemma shaped_matAddL {M F : List (List ℚ)} {dd : Nat}
    (hM : shaped M dd) (hF : shaped F dd) : shaped (matAddL M F) dd := by
  constructor
  · simp [matAddL, hM.1, hF.1]
  · intro i hi
    unfold matAddL
    rw [getD_zipWith_lt _ (by rw [hM.1]; exact hi) (by rw [hF.1]; exact hi) [] [] [],
      List.length_zipWith, hM.2 i hi, hF.2 i hi]
    exact Nat.min_self dd

lemma shaped_foldr {dd : Nat} :
    ∀ L : List (List (List ℚ)), (∀ M ∈ L, shaped M dd) →
      shaped (L.foldr matAddL (zeroMat dd dd)) dd := by
  intro L
  induction L with
  | nil => intro _; exact shaped_zeroMat dd
  | cons M L ih =>
    intro h
    exact shaped_matAddL (h M (by simp))
      (ih fun F hF => h F (by simp [hF]))

lemma matAddL_entry {M F : List (List ℚ)} {dd a b : Nat}
    (hM : shaped M dd) (hF : shaped F dd) (ha : a < dd) (hb : b < dd) :
    ((matAddL M F).getD a []).getD b 0 =
      (M.getD a []).getD b 0 + (F.getD a []).getD b 0 := by
  unfold matAddL
  rw [getD_zipWith_lt _ (by rw [hM.1]; exact ha) (by rw [hF.1]; exact ha) [] [] []]
  exact getD_zipWith_lt _ (by rw [hM.2 a ha]; exact hb)
    (by rw [hF.2 a ha]; exact hb) 0 0 0

lemma foldr_matAddL_entry {dd a b : Nat} (ha : a < dd) (hb : b < dd) :
    ∀ L : List (List (List ℚ)), (∀ M ∈ L, shaped M dd) →
      ((L.foldr matAddL (zeroMat dd dd)).getD a []).getD b 0 =
        (L.map fun M => (M.getD a []).getD b 0).sum := by
  intro L
  induction L with
  | nil =>
    intro _
    simp only [List.foldr_nil, List.map_nil, List.sum_nil]
    unfold zeroMat
    rw [getD_map_lt _ (by simpa using ha) _ 0]
    rw [getD_map_lt _ (by simpa using hb) _ 0]
  | cons M L ih =>
    intro h
    simp only [List.foldr_cons, List.map_cons, List.sum_cons]
    rw [matAddL_entry (h M (by simp))
      (shaped_foldr L fun F hF => h F (by simp [hF])) ha hb]
    rw [ih fun F hF => h F (by simp [hF])]

lemma matScaleL_outer_entry {g : ℚ} {w : List ℚ} {a b : Nat}
    (ha : a < w.length) (hb : b < w.length) :
    ((matScaleL g (outerL w)).getD a []).getD b 0 =
      g * (w.getD a 0 * w.getD b 0) := by
  have h1 : (matScaleL g (outerL w)).getD a [] =
      (w.map fun v => w.getD a 0 * v).map fun v => g * v := by
    unfold matScaleL outerL
    rw [getD_map_lt _ (by simpa using ha) _ [], getD_map_lt _ ha _ 0]
  rw [h1, getD_map_lt _ (by simpa using hb) _ 0, getD_map_lt _ hb _ 0]

lemma shaped_matScaleL_outer {g : ℚ} {w : List ℚ} {dd : Nat}
    (hw : w.length = dd) : shaped (matScaleL g (outerL w)) dd := by
  constructor
  · simp [matScaleL, outerL, hw]
  · intro i hi
    unfold matScaleL outerL
    rw [getD_map_lt _ (by rw [List.length_map, hw]; exact hi) _ [],
      getD_map_lt _ (by rw [hw]; exact hi) _ 0]
    simp [hw]

lemma vecSub_getD {x w : List ℚ} {k : Nat} (hx : k < x.length)
    (hw : k < w.length) :
    (vecSub x w).getD k 0 = x.getD k 0 - w.getD k 0 := by
  unfold vecSub
  exact getD_zipWith_lt _ hx hw 0 0 0

lemma vecSub_length (x w : List ℚ) :
    (vecSub x w).length = min x.length w.length := by
  simp [vecSub]

lemma matDivL_entry {A : List (List ℚ)} {c : ℚ} {dd a b : Nat}
    (hA : shaped A dd) (ha : a < dd) (hb : b < dd) :
    ((matDivL A c).getD a []).getD b 0 = (A.getD a []).getD b 0 / c := by
  unfold matDivL
  rw [getD_map_lt _ (by rw [hA.1]; exact ha) _ [],
    getD_map_lt _ (by rw [hA.2 a ha]; exact hb) _ 0]

lemma sigmaRawM_entry {nm : Numerics} {data : List (List ℚ)} {s : GMMState}
    {m a b : Nat} (hm : m < s.m) (hdata : data ≠ [])
    (hrect : ∀ r ∈ data, r.length = s.d) (ha : a < s.d) (hb : b < s.d) :
    ((sigmaRawM nm data s m).getD a []).getD b 0 =
      ((List.range data.length).map fun k =>
        (gammaRow nm data s m).getD k 0 *
          (((data.getD k []).getD a 0 - ((muNew nm data s).getD m []).getD a 0) *
           ((data.getD k []).getD b 0 - ((muNew nm data s).getD m []).getD b 0))).sum /
      (effCounts nm data s).getD m 0 := by
  have hmuR : ((muNew nm data s).getD m []).length = s.d :=
    muNew_row_length nm data s hm hdata hrect
  have hterm : ∀ k, k < data.length →
      (vecSub (data.getD k []) ((muNew nm data s).getD m [])).length = s.d := by
    intro k hk
    rw [vecSub_length, dataRow_length data s hrect hk, hmuR, Nat.min_self]
  unfold sigmaRawM
  rw [zipWith_eq_range_map _ _ _ (by rw [gammaRow_length]) 0 [],
    gammaRow_length nm data s m]
  have hshapes : ∀ M ∈ (List.range data.length).map fun k =>
      matScaleL ((gammaRow nm data s m).getD k 0)
        (outerL (vecSub (data.getD k []) ((muNew nm data s).getD m []))),
      shaped M s.d := by
    intro M hM
    obtain ⟨k, hk, rfl⟩ := List.mem_map.mp hM
    exact shaped_matScaleL_outer (hterm k (List.mem_range.mp hk))
  rw [matDivL_entry (shaped_foldr _ hshapes) ha hb,
    foldr_matAddL_entry ha hb _ hshapes, List.map_map]
  refine congrArg (fun q => q / (effCounts nm data s).getD m 0)
    (congrArg List.sum (List.map_congr_left fun k hk => ?_))
  have hk' := List.mem_range.mp hk
  have hxa : a < (data.getD k []).length := by
    rw [dataRow_length data s hrect hk']; exact ha
  have hxb : b < (data.getD k []).length := by
    rw [dataRow_length data s hrect hk']; exact hb
  have hwa : a < (vecSub (data.getD k []) ((muNew nm data s).getD m [])).length := by
    rw [hterm k hk']; exact ha
  have hwb : b < (vecSub (data.getD k []) ((muNew nm data s).getD m [])).length := by
    rw [hterm k hk']; exact hb
  simp only [Function.comp]
  rw [matScaleL_outer_entry hwa hwb,
    vecSub_getD hxa (by rw [hmuR]; exact ha),
    vecSub_getD hxb (by rw [hmuR]; exact hb)]

/-! ### The log-likelihood in terms of the pre-update parameters -/

lemma colSumsPM_eq_map (nm : Numerics) (data : List (List ℚ)) (s : GMMState) :
    colSumsPM nm data s = data.map fun x =>
      ((List.range s.m).map fun m =>
        s.pi.getD m 0 * nm.pdf x (s.mu.getD m []) (s.sigma.getD m [])).sum := by
  unfold colSumsPM
  have h1 : ∀ j ∈ List.range data.length,
      ((piMixtureMat nm data s).map fun r => r.getD j 0).sum =
        ((List.range s.m).map fun m =>
          s.pi.getD m 0 *
            nm.pdf (data.getD j []) (s.mu.getD m []) (s.sigma.getD m [])).sum := by
    intro j hj
    unfold piMixtureMat
    rw [List.map_map]
    exact congrArg List.sum (List.map_congr_left fun m _ =>
      pimRow_getD nm data s m (List.mem_range.mp hj))
  rw [List.map_congr_left h1]
  conv_rhs => rw [← range_map_getD data []]
  rw [List.map_map]
  rfl

lemma postNew_eq (nm : Numerics) (data : List (List ℚ)) (s : GMMState) :
    postNew nm data s = (data.map fun x => nm.log
      (((List.range s.m).map fun m =>
        s.pi.getD m 0 * nm.pdf x (s.mu.getD m []) (s.sigma.getD m [])).sum)).sum := by
  unfold postNew
  rw [colSumsPM_eq_map, List.map_map]
  rfl

/-! ### Sampling grids -/

lemma linspaceL_length (a b : ℚ) (num : Nat) : (linspaceL a b num).length = num := by
  simp [linspaceL]

lemma linspaceL_getD {k num : Nat} (hk : k < num) (h2 : 2 ≤ num) (a b : ℚ) :
    (linspaceL a b num).getD k 0 = a + k * (b - a) / ((num : ℚ) - 1) := by
  unfold linspaceL
  rw [getD_map_lt _ (by simpa using hk) _ 0, getD_range_lt hk, if_neg (by omega)]

/-! ### Concrete capability instances and demonstration states -/

/-- A benign capability instance: constant unit density, identity log and
square root, and an eigenvalue solver that always reports `[1]`. -/
def nmConst : Numerics where
  pdf := fun _ _ _ => 1
  log := fun q => q
  sqrt := fun q => q
  normpdf := fun _ _ _ => 1
  eigvals := fun _ => [1]
  kmeans := fun _ _ => []
  randn := fun _ _ => []

/-- A capability instance whose eigenvalue solver reports the true spectrum
`{-1, 1}` of `badCov`. -/
def nmNegEig : Numerics :=
  { nmConst with eigvals := fun _ => [-1, 1] }

/-- A capability instance whose density vanishes for the mixture centered at
`[5]`, producing a collapsed mixture with `N_m = 0`. -/
def nmDrop : Numerics :=
  { nmConst with pdf := fun _ mu _ => if mu = [5] then 0 else 1 }

/-- A one-mixture one-dimensional model state as produced by construction. -/
def sDemo : GMMState where
  m := 1
  d := 1
  pi := [1]
  mu := [[0]]
  sigma := [[[1]]]
  gamma := none
  post := 0

/-- The same state with `logPosterior` equal to `(tol+1)*N` for `tol = 1`,
`N = 1`, defeating the seeding of the first convergence comparison. -/
def sPost2 : GMMState :=
  { sDemo with post := 2 }

/-- A two-mixture state whose second mixture collapses (`N_1 = 0`) under
`nmDrop`. -/
def sTwo : GMMState where
  m := 2
  d := 1
  pi := [1/2, 1/2]
  mu := [[0], [5]]
  sigma := [[[1]], [[1]]]
  gamma := none
  post := 0

/-- `-1` is genuinely an eigenvalue of `badCov`:
`det(badCov - (-1)*identity) = det(badCov + identity) = 0`, so a correct
eigenvalue solver must report an eigenvalue that fails the `> 0.02` test. -/
lemma badCov_eigenvalue_neg_one : det2 (matAddL badCov (idMat 2)) = 0 := by
  norm_num [det2, matAddL, badCov, idMat, List.range_succ]

/-- The repair perturbation makes no progress on `badCov`: its diagonal is
zero, so scaling the diagonal by `1.05` returns the same matrix. -/
lemma perturbCov_badCov : perturbCov badCov = badCov := by
  norm_num [perturbCov, badCov, List.enum, List.enumFrom]

/-- Claim C1 (code bug): the source's positive-definiteness repair
(`_expectation_maximization` and `get_multivariate`) has no iteration cap at
all — the vestigial counter `j` is incremented but never tested, and no error
is ever raised.  On a covariance whose perturbation makes no progress and
whose eigenvalues fail the `> 0.02` test, the `while` loop runs forever: the
fuelled embedding returns `none` for every fuel, instead of the
`NumericalFailure` the claim requires. -/
theorem claim_C1_repair_unbounded (nm : Numerics)
    (hbad : isPosDef nm badCov = false) :
    ∀ fuel, repairLoop nm fuel badCov = none := by
  intro fuel
  induction fuel with
  | zero => simp [repairLoop, hbad]
  | succ k ih => simp [repairLoop, hbad, perturbCov_badCov, ih]

/-- Witness for C1: with the eigenvalue solver reporting the true spectrum
`{-1, 1}` of `badCov`, the check fails and the repair loop never exits. -/
theorem claim_C1_witness :
    isPosDef nmNegEig badCov = false ∧ repairLoop nmNegEig 50 badCov = none :=
  ⟨by norm_num [isPosDef, nmNegEig, nmConst],
   claim_C1_repair_unbounded nmNegEig
     (by norm_num [isPosDef, nmNegEig, nmConst]) 50⟩

/-- Claim C10 (confirmed): `fit` with `max_steps <= 0` returns without error
and without touching any model state: the loop guard `step < max_steps` fails
immediately, so zero iterations execute and the state is returned intact. -/
theorem claim_C10_no_step_no_change (nm : Numerics) (data : List (List ℚ))
    (maxSteps : Int) (tol : ℚ) (useK : Bool) (fuel : Nat) (s : GMMState)
    (h : maxSteps ≤ 0) :
    fitRun nm data maxSteps tol useK fuel s =
      some (s, 0, (tol + 1) * (data.length : ℚ)) := by
  unfold fitRun
  rw [Int.toNat_of_nonpos h]
  rfl

/-- Witness for C10 at `max_steps = -2`. -/
theorem claim_C10_witness :
    (-2 : Int) ≤ 0 ∧
      fitRun nmConst [[0]] (-2) 1 false 0 sDemo =
        some (sDemo, 0, (1 + 1) * (([[(0 : ℚ)]] : List (List ℚ)).length : ℚ)) :=
  ⟨by norm_num, claim_C10_no_step_no_change nmConst [[0]] (-2) 1 false 0 sDemo
    (by norm_num)⟩

/-- Claim C4 counterexample: construction with `M = 0 <= 0` succeeds instead
of failing with an InvalidArgument error (the source validates nothing;
`np.ones((0,))`, `np.random.randn(0, 1)` and `[identity(1)] * 0` all accept
size zero). -/
theorem claim_C4_counterexample : (gmmInit nmConst 0 1).isSome = true := by
  norm_num [gmmInit]

/-- Claim C4 (amended): construction fails only for a negative mixture count
or dimensionality (the array library's invalid-size error — there is no
dedicated InvalidArgument check), and `M = 0` or `D = 0` construct
successfully; `fit` validates nothing at all — in particular a call with
`max_steps < 1` returns successfully (with the model unchanged) no matter the
tolerance, instead of raising InvalidArgument. -/
theorem claim_C4_amended :
    (∀ (nm : Numerics) (m d : Int),
      (gmmInit nm m d).isSome ↔ 0 ≤ m ∧ 0 ≤ d) ∧
    (∀ (nm : Numerics) (data : List (List ℚ)) (tol : ℚ) (useK : Bool)
      (fuel : Nat) (s : GMMState) (maxSteps : Int), maxSteps ≤ 0 →
        fit nm data maxSteps tol useK fuel s = some s) := by
  constructor
  · intro nm m d
    unfold gmmInit
    by_cases h : m < 0 ∨ d < 0
    · simp only [h, if_true, Option.isSome_none]
      constructor
      · intro hc; exact absurd hc (by simp)
      · intro hc; omega
    · simp only [h, if_false, Option.isSome_some]
      constructor
      · intro _; omega
      · intro _; trivial
  · intro nm data tol useK fuel s maxSteps h
    unfold fit fitRun
    rw [Int.toNat_of_nonpos h]
    rfl

/-- Witness for C4 (amended), at `M = 0`, `D = 1` and `max_steps = -1`. -/
theorem claim_C4_witness :
    ((gmmInit nmConst 0 1).isSome ↔ 0 ≤ (0 : Int) ∧ 0 ≤ (1 : Int)) ∧
      ((-1 : Int) ≤ 0 ∧ fit nmConst [[0]] (-1) 1 false 0 sDemo = some sDemo) :=
  ⟨claim_C4_amended.1 nmConst 0 1,
   by norm_num,
   claim_C4_amended.2 nmConst [[0]] 1 false 0 sDemo (-1) (by norm_num)⟩

/-- Claim C5 (amended): the M-step guards nothing — the divisions by `N_m`
are applied unconditionally, and the only way `_expectation_maximization` can
fail to return is the covariance repair loop; a zero `N_m` never raises a
NumericalFailure. -/
theorem claim_C5_amended (nm : Numerics) (data : List (List ℚ)) (fuel : Nat)
    (s : GMMState) :
    emStep nm data fuel s = none ↔
      repairAll nm fuel (sigmaRawList nm data s) = none := by
  unfold emStep
  cases h : repairAll nm fuel (sigmaRawList nm data s) <;> simp [h]

/-- The state produced by one EM step of `nmConst` on `[[0], [2]]` from
`sDemo`: mean `1`, variance `1`, unit weight, both responsibilities `1`. -/
def sFit : GMMState where
  m := 1
  d := 1
  pi := [1]
  mu := [[1]]
  sigma := [[[1]]]
  gamma := some [[1, 1]]
  post := 2

/-- The state produced by one EM step of `nmDrop` on `[[0]]` from `sTwo`: the
second mixture collapses to `N_1 = 0` and the division by `N_1` is performed
anyway. -/
def sCollapsed : GMMState where
  m := 2
  d := 1
  pi := [1, 0]
  mu := [[0], [0]]
  sigma := [[[0]], [[0]]]
  gamma := some [[1], [0]]
  post := 1/2

lemma emDemo : emStep nmConst [[0], [2]] 0 sDemo = some sFit := by
  norm_num [emStep, repairAll, repairLoop, isPosDef, sigmaRawList, sigmaRawM,
    matDivL, matAddL, zeroMat, matScaleL, outerL, vecSub, muNew, matMulL, dotL,
    piNew, effCounts, gammaMat, gammaRow, colSumsPM, piMixtureMat, pimRow,
    mixRow, postNew, nmConst, sDemo, sFit, List.range_succ]

lemma fitDemo : fitRun nmConst [[0], [2]] 1 1 false 0 sDemo = some (sFit, 1, 0) := by
  have hc : (1 : ℚ) <
      |sDemo.post - (1 + 1) * (([[(0:ℚ)], [2]] : List (List ℚ)).length : ℚ)| /
        (([[(0:ℚ)], [2]] : List (List ℚ)).length : ℚ) := by
    norm_num [sDemo]
  have hem2 : emStep nmConst [[0], [2]] 0
      (if false then { sDemo with mu := nmConst.kmeans [[0], [2]] sDemo.m }
       else sDemo) = some sFit := emDemo
  unfold fitRun
  rw [show (1 : Int).toNat = 0 + 1 from rfl, fitLoop_succ_em_some hc hem2]
  norm_num [fitLoop, sDemo]

lemma fitDemoFive : fitRun nmConst [[0], [2]] 5 1 false 0 sDemo =
    some (sFit, 1, 0) := by
  have hc : (1 : ℚ) <
      |sDemo.post - (1 + 1) * (([[(0:ℚ)], [2]] : List (List ℚ)).length : ℚ)| /
        (([[(0:ℚ)], [2]] : List (List ℚ)).length : ℚ) := by
    norm_num [sDemo]
  have hem2 : emStep nmConst [[0], [2]] 0
      (if false then { sDemo with mu := nmConst.kmeans [[0], [2]] sDemo.m }
       else sDemo) = some sFit := emDemo
  have hstop : ¬ (1 : ℚ) <
      |sFit.post - sDemo.post| / (([[(0:ℚ)], [2]] : List (List ℚ)).length : ℚ) := by
    norm_num [sDemo, sFit]
  unfold fitRun
  rw [show (5 : Int).toNat = 4 + 1 from rfl, fitLoop_succ_em_some hc hem2,
    show (4 : Nat) = 3 + 1 from rfl, fitLoop_succ_of_ge hstop]
  norm_num [sDemo]

/-- Claim C5 counterexample: on `nmDrop` and data `[[0]]` from `sTwo`, the
second mixture's effective count is exactly `0`, yet the M-step completes
normally — the divisions by `N_1 = 0` are executed unguarded (numpy emits
`inf`/`nan`; the exact embedding's division-by-zero convention yields `0`)
and no NumericalFailure is raised. -/
theorem claim_C5_counterexample :
    effCounts nmDrop [[0]] sTwo = [1, 0] ∧
      emStep nmDrop [[0]] 0 sTwo = some sCollapsed := by
  constructor
  · norm_num [effCounts, gammaMat, gammaRow, colSumsPM, piMixtureMat, pimRow,
      mixRow, nmDrop, nmConst, sTwo, List.range_succ]
  · norm_num [emStep, repairAll, repairLoop, isPosDef, sigmaRawList, sigmaRawM,
      matDivL, matAddL, zeroMat, matScaleL, outerL, vecSub, muNew, matMulL,
      dotL, piNew, effCounts, gammaMat, gammaRow, colSumsPM, piMixtureMat,
      pimRow, mixRow, postNew, nmDrop, nmConst, sTwo, sCollapsed,
      List.range_succ]

/-- Claim C3 counterexample: a `fit` call with `maxSteps = 1 >= 1` and
`tolerance = 1 > 0` on a model whose `logPosterior` happens to equal
`(tol + 1) * N` executes zero EM iterations — the seeded first comparison
`|post - (tol+1)*N| / N > tol` is `0 > 1`, false, so the loop body never
runs, contradicting the claim that entry is always forced. -/
theorem claim_C3_counterexample :
    1 ≤ (1 : Int) ∧ (0 : ℚ) < 1 ∧
      fitRun nmConst [[0]] 1 1 false 0 sPost2 = some (sPost2, 0, 2) := by
  refine ⟨le_refl 1, by norm_num, ?_⟩
  have hstop : ¬ (1 : ℚ) < |sPost2.post - (1 + 1) * (([[(0:ℚ)]] :
      List (List ℚ)).length : ℚ)| / (([[(0:ℚ)]] : List (List ℚ)).length : ℚ) := by
    norm_num [sPost2, sDemo]
  unfold fitRun
  rw [show (1 : Int).toNat = 0 + 1 from rfl, fitLoop_succ_of_ge hstop]
  norm_num

/-- Claim C3 (amended): under `maxSteps >= 1` and `tolerance > 0`, and
provided the current `logPosterior` differs from the seed `(tol + 1) * N` by
more than `tol * N` (guaranteed for a freshly constructed model, whose
`logPosterior` is `0`, on nonempty data, but not after an earlier `fit`), the
EM loop executes at least one iteration; in all cases it executes at most
`maxSteps` iterations, and if it stops before the cap then the final
comparison satisfied `|logPosterior - logPosterior_prev| / N <= tolerance`. -/
theorem claim_C3_amended (nm : Numerics) (data : List (List ℚ))
    (maxSteps : Int) (tol : ℚ) (useK : Bool) (fuel : Nat) (s s' : GMMState)
    (c : Nat) (p' : ℚ) (hms : 1 ≤ maxSteps) (htol : 0 < tol)
    (hentry : tol < |s.post - (tol + 1) * (data.length : ℚ)| / (data.length : ℚ))
    (hrun : fitRun nm data maxSteps tol useK fuel s = some (s', c, p')) :
    1 ≤ c ∧ c ≤ maxSteps.toNat ∧
      (c < maxSteps.toNat → |s'.post - p'| / (data.length : ℚ) ≤ tol) := by
  obtain ⟨k, hk⟩ : ∃ k, maxSteps.toNat = k + 1 := ⟨maxSteps.toNat - 1, by omega⟩
  unfold fitRun at hrun
  rw [hk] at hrun
  have hle : c ≤ k + 1 := fitLoop_steps_le (k + 1) useK
    ((tol + 1) * (data.length : ℚ)) s (s', c, p') hrun
  have hconv : c < k + 1 → ¬ tol < |s'.post - p'| / (data.length : ℚ) :=
    fun hlt => fitLoop_exit_converged (k + 1) useK
      ((tol + 1) * (data.length : ℚ)) s s' c p' hrun hlt
  refine ⟨?_, by rw [hk]; exact hle,
    fun hlt => not_lt.mp (hconv (by rw [hk] at hlt; exact hlt))⟩
  cases hem : emStep nm data fuel
      (if useK then { s with mu := nm.kmeans data s.m } else s) with
  | none => rw [fitLoop_succ_em_none hentry hem] at hrun; exact absurd hrun (by simp)
  | some s2 =>
    rw [fitLoop_succ_em_some hentry hem] at hrun
    cases hrec : fitLoop nm data tol fuel k false s.post s2 with
    | none => rw [hrec] at hrun; exact absurd hrun (by simp)
    | some r0 =>
      rw [hrec] at hrun
      simp only [Option.map_some', Option.some.injEq, Prod.mk.injEq] at hrun
      omega

/-- Witness for the amended C3: on the demonstration run the loop executes
exactly one of the five allowed iterations and stops by convergence. -/
theorem claim_C3_witness :
    (1 ≤ (5 : Int) ∧ (0 : ℚ) < 1 ∧
      fitRun nmConst [[0], [2]] 5 1 false 0 sDemo = some (sFit, 1, 0)) ∧
    (1 ≤ 1 ∧ 1 ≤ (5 : Int).toNat ∧
      (1 < (5 : Int).toNat →
        |sFit.post - 0| / (([[(0:ℚ)], [2]] : List (List ℚ)).length : ℚ) ≤ 1)) :=
  ⟨⟨by norm_num, by norm_num, fitDemoFive⟩,
   claim_C3_amended nmConst [[0], [2]] 5 1 false 0 sDemo sFit 1 0
     (by norm_num) (by norm_num) (by norm_num [sDemo]) fitDemoFive⟩

/-- Claim C2 (confirmed): any `fit` call that enters the loop (the seeded
first comparison passes, e.g. a freshly constructed model on nonempty data)
and runs to completion leaves the model with weights summing to `1`, every
covariance passing the eigenvalue check `> 0.02` (as reported by the
eigenvalue solver, the source's own notion of positive definiteness), and
every column of the freshly computed responsibilities summing to `1`.
Positivity of the external density and well-formed input weights are the
standing assumptions the real collaborators satisfy. -/
theorem claim_C2_fit_invariants (nm : Numerics) (data : List (List ℚ))
    (maxSteps : Int) (tol : ℚ) (useK : Bool) (fuel : Nat) (s s' : GMMState)
    (c : Nat) (p' : ℚ)
    (hpdf : ∀ x mu sg, 0 < nm.pdf x mu sg) (hdata : data ≠ [])
    (hnn : ∀ q ∈ s.pi, 0 ≤ q) (hsum : s.pi.sum = 1) (hlen : s.pi.length = s.m)
    (hms : 1 ≤ maxSteps)
    (hentry : tol < |s.post - (tol + 1) * (data.length : ℚ)| / (data.length : ℚ))
    (hrun : fitRun nm data maxSteps tol useK fuel s = some (s', c, p')) :
    s'.pi.sum = 1 ∧ (∀ sg ∈ s'.sigma, isPosDef nm sg = true) ∧
      ∃ g, s'.gamma = some g ∧
        ∀ j < data.length, (g.map fun r => r.getD j 0).sum = 1 := by
  obtain ⟨k, hk⟩ : ∃ k, maxSteps.toNat = k + 1 := ⟨maxSteps.toNat - 1, by omega⟩
  unfold fitRun at hrun
  rw [hk] at hrun
  cases hem : emStep nm data fuel
      (if useK then { s with mu := nm.kmeans data s.m } else s) with
  | none => rw [fitLoop_succ_em_none hentry hem] at hrun; exact absurd hrun (by simp)
  | some s2 =>
    have hg1 : goodPi (if useK then { s with mu := nm.kmeans data s.m } else s) := by
      by_cases hu : useK = true
      · simp only [hu, if_true]
        exact ⟨hnn, hsum, hlen⟩
      · simp only [Bool.not_eq_true] at hu
        simp only [hu, Bool.false_eq_true, if_false]
        exact ⟨hnn, hsum, hlen⟩
    have hg2 : goodPi s2 := (emStep_inv hpdf hdata hg1 hem).1
    rw [fitLoop_succ_em_some hentry hem] at hrun
    cases hrec : fitLoop nm data tol fuel k false s.post s2 with
    | none => rw [hrec] at hrun; exact absurd hrun (by simp)
    | some r0 =>
      rw [hrec] at hrun
      simp only [Option.map_some', Option.some.injEq, Prod.mk.injEq] at hrun
      obtain ⟨hr1, _, _⟩ := hrun
      have hlast : ∃ t, goodPi t ∧ emStep nm data fuel t = some s' := by
        rcases fitLoop_last_em hpdf hdata k false s.post s2 r0.1 r0.2.1 r0.2.2
            hg2 (by rw [hrec]) with ⟨he, _⟩ | ⟨t, hgt, hemt⟩
        · exact ⟨_, hg1, by rw [hem, show s2 = s' from he ▸ hr1]⟩
        · exact ⟨t, hgt, by rw [hemt, hr1]⟩
      obtain ⟨t, hgt, hemt⟩ := hlast
      obtain ⟨hgood2, _, hsig2, hgam2, _⟩ := emStep_inv hpdf hdata hgt hemt
      refine ⟨hgood2.2.1, hsig2, gammaMat nm data t, hgam2, ?_⟩
      intro j hj
      exact gamma_colSum_one hpdf hgt.1 hgt.2.1 hgt.2.2 hj

/-- Witness for C2 on the demonstration run. -/
theorem claim_C2_witness :
    fitRun nmConst [[0], [2]] 1 1 false 0 sDemo = some (sFit, 1, 0) ∧
      sFit.pi.sum = 1 ∧ (∀ sg ∈ sFit.sigma, isPosDef nmConst sg = true) ∧
      ∃ g, sFit.gamma = some g ∧
        ∀ j < ([[(0:ℚ)], [2]] : List (List ℚ)).length,
          (g.map fun r => r.getD j 0).sum = 1 :=
  ⟨fitDemo, claim_C2_fit_invariants nmConst [[0], [2]] 1 1 false 0 sDemo sFit
    1 0 (fun _ _ _ => one_pos) (by simp) (by norm_num [sDemo])
    (by norm_num [sDemo]) (by norm_num [sDemo]) (by norm_num)
    (by norm_num [sDemo]) fitDemo⟩

/-- Claim C6 (confirmed): in terms of the responsibilities `gammaRow`
computed by this iteration's E-step and the effective count
`N_m = Σ_k gamma[m, k]`, the M-step updates are exactly
`weights[m] = N_m / N`, `means[m] = (Σ_k gamma[m,k] * x_k[t]) / N_m`, and —
before any positive-definiteness repair — `covariances[m][a][b] =
(Σ_k gamma[m,k] * (x_k[a] - means[m][a]) * (x_k[b] - means[m][b])) / N_m`,
with `means[m]` the freshly updated mean. -/
theorem claim_C6_mstep_update (nm : Numerics) (data : List (List ℚ))
    (s : GMMState) (m t a b : Nat) (hm : m < s.m) (hdata : data ≠ [])
    (hrect : ∀ r ∈ data, r.length = s.d) (ht : t < s.d) (ha : a < s.d)
    (hb : b < s.d) :
    (piNew nm data s).getD m 0 =
      ((List.range data.length).map fun k =>
        (gammaRow nm data s m).getD k 0).sum / (data.length : ℚ) ∧
    ((muNew nm data s).getD m []).getD t 0 =
      ((List.range data.length).map fun k =>
        (gammaRow nm data s m).getD k 0 * (data.getD k []).getD t 0).sum /
      ((List.range data.length).map fun k =>
        (gammaRow nm data s m).getD k 0).sum ∧
    ((sigmaRawM nm data s m).getD a []).getD b 0 =
      ((List.range data.length).map fun k =>
        (gammaRow nm data s m).getD k 0 *
          (((data.getD k []).getD a 0 - ((muNew nm data s).getD m []).getD a 0) *
           ((data.getD k []).getD b 0 - ((muNew nm data s).getD m []).getD b 0))).sum /
      ((List.range data.length).map fun k =>
        (gammaRow nm data s m).getD k 0).sum := by
  have hNm : (effCounts nm data s).getD m 0 =
      ((List.range data.length).map fun k =>
        (gammaRow nm data s m).getD k 0).sum := by
    rw [effCounts_getD nm data s hm, gammaRow_sum_eq_range]
  refine ⟨?_, ?_, ?_⟩
  · rw [piNew_getD nm data s hm, hNm]
  · rw [muNew_entry nm data s hm hdata hrect ht, hNm]
  · rw [sigmaRawM_entry hm hdata hrect ha hb, hNm]

/-- Witness for C6 at the first mixture and coordinate of the demonstration
state. -/
theorem claim_C6_witness :
    (0 < sDemo.m ∧ ([[(0:ℚ)], [2]] : List (List ℚ)) ≠ [] ∧ 0 < sDemo.d) ∧
    ((piNew nmConst [[0], [2]] sDemo).getD 0 0 =
      ((List.range ([[(0:ℚ)], [2]] : List (List ℚ)).length).map fun k =>
        (gammaRow nmConst [[0], [2]] sDemo 0).getD k 0).sum /
      (([[(0:ℚ)], [2]] : List (List ℚ)).length : ℚ) ∧
    ((muNew nmConst [[0], [2]] sDemo).getD 0 []).getD 0 0 =
      ((List.range ([[(0:ℚ)], [2]] : List (List ℚ)).length).map fun k =>
        (gammaRow nmConst [[0], [2]] sDemo 0).getD k 0 *
          (([[(0:ℚ)], [2]] : List (List ℚ)).getD k []).getD 0 0).sum /
      ((List.range ([[(0:ℚ)], [2]] : List (List ℚ)).length).map fun k =>
        (gammaRow nmConst [[0], [2]] sDemo 0).getD k 0).sum ∧
    ((sigmaRawM nmConst [[0], [2]] sDemo 0).getD 0 []).getD 0 0 =
      ((List.range ([[(0:ℚ)], [2]] : List (List ℚ)).length).map fun k =>
        (gammaRow nmConst [[0], [2]] sDemo 0).getD k 0 *
          (((([[(0:ℚ)], [2]] : List (List ℚ)).getD k []).getD 0 0 -
              ((muNew nmConst [[0], [2]] sDemo).getD 0 []).getD 0 0) *
            ((([[(0:ℚ)], [2]] : List (List ℚ)).getD k []).getD 0 0 -
              ((muNew nmConst [[0], [2]] sDemo).getD 0 []).getD 0 0))).sum /
      ((List.range ([[(0:ℚ)], [2]] : List (List ℚ)).length).map fun k =>
        (gammaRow nmConst [[0], [2]] sDemo 0).getD k 0).sum) :=
  ⟨⟨by norm_num [sDemo], by simp, by norm_num [sDemo]⟩,
   claim_C6_mstep_update nmConst [[0], [2]] sDemo 0 0 0 0
     (by norm_num [sDemo]) (by simp)
     (by intro r hr; fin_cases hr <;> simp [sDemo])
     (by norm_num [sDemo]) (by norm_num [sDemo]) (by norm_num [sDemo])⟩

/-- Claim C7 (confirmed): after an EM iteration, `logPosterior` is the sum
over data points of the log of that point's column sum of the unnormalized
responsibility matrix — the weighted density under the parameters as they
were *before* this iteration's M-step update (the same E-step that produced
the current responsibilities). -/
theorem claim_C7_post_formula (nm : Numerics) (data : List (List ℚ))
    (fuel : Nat) (s s' : GMMState) (hst : emStep nm data fuel s = some s') :
    s'.post = (data.map fun x => nm.log
      (((List.range s.m).map fun m =>
        s.pi.getD m 0 * nm.pdf x (s.mu.getD m []) (s.sigma.getD m [])).sum)).sum := by
  obtain ⟨sig2, _, rfl⟩ := emStep_eq_some.mp hst
  exact postNew_eq nm data s

/-- Witness for C7 on the demonstration EM step. -/
theorem claim_C7_witness :
    emStep nmConst [[0], [2]] 0 sDemo = some sFit ∧
      sFit.post = (([[(0:ℚ)], [2]] : List (List ℚ)).map fun x => nmConst.log
        (((List.range sDemo.m).map fun m =>
          sDemo.pi.getD m 0 *
            nmConst.pdf x (sDemo.mu.getD m []) (sDemo.sigma.getD m [])).sum)).sum :=
  ⟨emDemo, claim_C7_post_formula nmConst [[0], [2]] 0 sDemo sFit emDemo⟩

/-- Claim C8 (confirmed): `get_marginal` returns two sequences of length
`numSamples`; the abscissas are `numSamples` evenly spaced points over
`plotInterval`, and each density value is the weighted sum over mixtures of
the 1-D normal density (the external `normpdf`, keyed on the standard
deviation, i.e. on `sqrt` of the variance) with mean
`ra * means[m][i] + c` and variance `covariances[m][i][i] * ra^2`, where
`ra = (interval[1]-interval[0])/(2*scalingFactor)` and
`c = (interval[0]+interval[1])/2`. -/
theorem claim_C8_marginal (nm : Numerics) (s : GMMState) (i : Nat)
    (interval plotI : ℚ × ℚ) (scal : ℚ) (num k : Nat)
    (hmu : s.mu.length = s.m) (hsig : s.sigma.length = s.m)
    (hnum : 2 ≤ num) (hk : k < num) :
    (getMarginal nm s i interval plotI scal num).2.1.length = num ∧
    (getMarginal nm s i interval plotI scal num).2.2.length = num ∧
    (getMarginal nm s i interval plotI scal num).2.1.getD k 0 =
      plotI.1 + (k : ℚ) * (plotI.2 - plotI.1) / ((num : ℚ) - 1) ∧
    (getMarginal nm s i interval plotI scal num).2.2.getD k 0 =
      ((List.range s.m).map fun m =>
        s.pi.getD m 0 * nm.normpdf
          ((getMarginal nm s i interval plotI scal num).2.1.getD k 0)
          ((interval.2 - interval.1) / (2 * scal) * (s.mu.getD m []).getD i 0 +
            (interval.1 + interval.2) / 2)
          (nm.sqrt (((s.sigma.getD m []).getD i []).getD i 0 *
            ((interval.2 - interval.1) / (2 * scal)) ^ 2))).sum := by
  simp only [getMarginal]
  refine ⟨linspaceL_length _ _ _, ?_, linspaceL_getD hk hnum _ _, ?_⟩
  · rw [List.length_map, linspaceL_length]
  · rw [getD_map_lt _ (by rw [linspaceL_length]; exact hk) _ 0]
    refine congrArg List.sum (List.map_congr_left fun m hm => ?_)
    have hm' := List.mem_range.mp hm
    rw [getD_map_lt _ (by rw [hmu]; exact hm') _ [],
      getD_map_lt _ (by rw [hsig]; exact hm') _ []]

/-- Witness for C8 on the demonstration state with three samples. -/
theorem claim_C8_witness :
    (sDemo.mu.length = sDemo.m ∧ sDemo.sigma.length = sDemo.m ∧
      2 ≤ 3 ∧ 1 < 3) ∧
    ((getMarginal nmConst sDemo 0 (0, 1) (0, 1) 1 3).2.1.length = 3 ∧
    (getMarginal nmConst sDemo 0 (0, 1) (0, 1) 1 3).2.2.length = 3 ∧
    (getMarginal nmConst sDemo 0 (0, 1) (0, 1) 1 3).2.1.getD 1 0 =
      (0 : ℚ) + (1 : ℚ) * (1 - 0) / ((3 : ℚ) - 1) ∧
    (getMarginal nmConst sDemo 0 (0, 1) (0, 1) 1 3).2.2.getD 1 0 =
      ((List.range sDemo.m).map fun m =>
        sDemo.pi.getD m 0 * nmConst.normpdf
          ((getMarginal nmConst sDemo 0 (0, 1) (0, 1) 1 3).2.1.getD 1 0)
          (((1 : ℚ) - 0) / (2 * 1) * (sDemo.mu.getD m []).getD 0 0 +
            ((0 : ℚ) + 1) / 2)
          (nmConst.sqrt (((sDemo.sigma.getD m []).getD 0 []).getD 0 0 *
            (((1 : ℚ) - 0) / (2 * 1)) ^ 2))).sum) :=
  ⟨⟨by norm_num [sDemo], by norm_num [sDemo], by norm_num, by norm_num⟩,
   claim_C8_marginal nmConst sDemo 0 (0, 1) (0, 1) 1 3 1
     (by norm_num [sDemo]) (by norm_num [sDemo]) (by norm_num) (by norm_num)⟩

/-- Claim C9 (confirmed): the density queries are pure reads.
`get_marginal` returns the model state unchanged, and so does
`get_multivariate` whenever it returns at all — its positive-definiteness
repair acts on the local rescaled `2×2` block only, never on the stored
covariances. -/
theorem claim_C9_queries_pure (nm : Numerics) (s : GMMState) (i j : Nat)
    (interval plotInterval : ℚ × ℚ)
    (intervals plotIntervals : (ℚ × ℚ) × (ℚ × ℚ)) (scal : ℚ)
    (num num2 fuel : Nat)
    (r : GMMState × (List (List ℚ) × List (List ℚ) × List (List ℚ)))
    (h : getMultivariate nm s i j intervals plotIntervals scal num2 fuel = some r) :
    (getMarginal nm s i interval plotInterval scal num).1 = s ∧ r.1 = s := by
  refine ⟨rfl, ?_⟩
  unfold getMultivariate at h
  simp only [Option.map_eq_some'] at h
  obtain ⟨c2, _, hf⟩ := h
  rw [← hf]

/-- Witness for C9 on a concrete joint-density query. -/
theorem claim_C9_witness :
    getMultivariate nmConst sDemo 0 0 ((0, 1), (0, 1)) ((0, 1), (0, 1)) 1 2 0 =
      some (sDemo, ([[0, 1], [0, 1]], [[0, 0], [1, 1]], [[1, 1], [1, 1]])) ∧
    (getMarginal nmConst sDemo 0 (0, 1) (0, 1) 1 2).1 = sDemo ∧
    ((sDemo, ([[(0:ℚ), 1], [0, 1]], [[(0:ℚ), 0], [1, 1]],
      [[(1:ℚ), 1], [1, 1]])) : GMMState ×
        (List (List ℚ) × List (List ℚ) × List (List ℚ))).1 = sDemo := by
  have h : getMultivariate nmConst sDemo 0 0 ((0, 1), (0, 1)) ((0, 1), (0, 1)) 1 2 0 =
      some (sDemo, ([[0, 1], [0, 1]], [[0, 0], [1, 1]], [[1, 1], [1, 1]])) := by
    norm_num [getMultivariate, repairAll, repairLoop, isPosDef, linspaceL,
      nmConst, sDemo, List.range_succ]
  exact ⟨h,
    (claim_C9_queries_pure nmConst sDemo 0 0 (0, 1) (0, 1) ((0, 1), (0, 1))
      ((0, 1), (0, 1)) 1 2 2 0 _ h).1,
    (claim_C9_queries_pure nmConst sDemo 0 0 (0, 1) (0, 1) ((0, 1), (0, 1))
      ((0, 1), (0, 1)) 1 2 2 0 _ h).2⟩
